import Mathlib

/-!
Shallow embedding of `foor.py`, a script that extracts likely "wall" line
segments from an architectural floor-plan SVG file and renders them.

The two core functions of the source are embedded faithfully:

* `parse_svg_for_walls` — the wall filter: iterates over the elements of a
  parsed XML document, keeps the `path` elements whose `style` declares a
  stroke-width above 0.5 and whose first probed segment is long enough.
* `parse_d_attribute` — the path interpreter: converts an SVG `d` command
  string into a list of scaled coordinate points.

Modelling conventions:

* Python strings are Lean `String`s; the string-slicing primitives the
  source uses (`in`, `split`, `replace`, whitespace `split()`) are embedded
  as executable functions on `List Char` below, with Python's semantics
  (leftmost, non-overlapping occurrences).
* Python floats are modelled as exact rationals `ℚ`; `float(...)` applied
  to a string is modelled by `pyFloat`, which accepts the finite decimal
  literals (optional sign, digits, decimal point, exponent) that occur in
  SVG data.  `math.sqrt` is modelled by `Real.sqrt`.
* A Python expression that may raise is embedded in `Except PyErr`;
  `PyErr` distinguishes the two exception classes the source manipulates.
* The call to the external XML library (`ET.parse`) is outside the source;
  its outcome is passed to `parse_svg_for_walls` as an
  `Except String (List SvgElement)` value, and `print` calls are modelled
  as an accumulated message list.
-/

set_option allowUnsafeReducibility true

attribute [semireducible] Rat.add Rat.mul Rat.sub Rat.inv Rat.ofScientific Rat.div

deriving instance DecidableEq for Except

/-- A Python exception, restricted to the two classes the source code
raises or catches: `IndexError` and `ValueError`. -/
inductive PyErr where
  | indexError : PyErr
  | valueError : PyErr
deriving DecidableEq

/-- Decides whether `p` is a (contiguous, initial) prefix of `l`. -/
def isPre : List Char → List Char → Bool
  | [], _ => true
  | _ :: _, [] => false
  | a :: s, b :: t => a = b && isPre s t

/-- Python's substring test `sep in hay`. -/
def strContains (sep : List Char) : List Char → Bool
  | [] => isPre sep []
  | c :: t => isPre sep (c :: t) || strContains sep t

/-- Splits `l` at the leftmost occurrence of `sep`, returning the text
before the occurrence and the text after it; `none` when `sep` does not
occur in `l`. -/
def splitFirst (sep : List Char) : List Char → Option (List Char × List Char)
  | [] => if isPre sep [] then some ([], List.drop sep.length []) else none
  | c :: t =>
    if isPre sep (c :: t) then some ([], List.drop sep.length (c :: t))
    else (splitFirst sep t).map (fun p => (c :: p.1, p.2))

/-- Fuelled worker for `pySplit`; the fuel bounds the number of separator
occurrences so that the recursion is structural and kernel-reducible. -/
def pySplitF (sep : List Char) : Nat → List Char → List (List Char)
  | 0, hay => [hay]
  | n + 1, hay =>
    match splitFirst sep hay with
    | none => [hay]
    | some (a, b) => a :: pySplitF sep n b

/-- Python's `hay.split(sep)` for a non-empty separator string. -/
def pySplit (sep hay : List Char) : List (List Char) :=
  pySplitF sep (hay.length + 1) hay

/-- The part of `l` before the leftmost occurrence of `sep` (all of `l`
when `sep` does not occur): the head of Python's `l.split(sep)`. -/
def firstPart (sep l : List Char) : List Char :=
  match splitFirst sep l with
  | none => l
  | some p => p.1

/-- Python's `hay.split(c)` for a single-character separator. -/
def charSplit (sep : Char) : List Char → List (List Char)
  | [] => [[]]
  | c :: t =>
    if c = sep then [] :: charSplit sep t
    else
      match charSplit sep t with
      | [] => [[c]]
      | h :: r => (c :: h) :: r

/-- Fuelled worker for `pyReplace`. -/
def pyReplaceF (pat rep : List Char) : Nat → List Char → List Char
  | 0, hay => hay
  | n + 1, hay =>
    match splitFirst pat hay with
    | none => hay
    | some (a, b) => a ++ rep ++ pyReplaceF pat rep n b

/-- Python's `hay.replace(pat, rep)` for a non-empty pattern: rewrites the
leftmost-first, non-overlapping occurrences of `pat` to `rep`. -/
def pyReplace (pat rep hay : List Char) : List Char :=
  pyReplaceF pat rep (hay.length + 1) hay

/-- Numeric value of a digit string, most significant digit first. -/
def digitsToNat (l : List Char) : ℕ :=
  l.foldl (fun n c => 10 * n + (c.toNat - 48)) 0

/-- Strips leading and trailing whitespace, as Python `float` does before
reading a numeric literal. -/
def stripChars (l : List Char) : List Char :=
  ((l.dropWhile Char.isWhitespace).reverse.dropWhile Char.isWhitespace).reverse

/-- Splits a character list into its maximal leading run of digits and the
rest. -/
def spanDigits : List Char → List Char × List Char
  | [] => ([], [])
  | c :: t =>
    if c.isDigit then
      let p := spanDigits t
      (c :: p.1, p.2)
    else ([], c :: t)

/-- Reads an optional exponent suffix (`e`/`E`, optional sign, digits) and
requires the input to be exhausted, scaling the mantissa `m` accordingly. -/
def expPart (m : ℚ) : List Char → Option ℚ
  | [] => some m
  | c :: r =>
    if c = 'e' ∨ c = 'E' then
      let sr : ℤ × List Char :=
        match r with
        | '+' :: r2 => (1, r2)
        | '-' :: r2 => (-1, r2)
        | _ => (1, r)
      let p := spanDigits sr.2
      if p.1 = [] ∨ p.2 ≠ [] then none
      else some (m * (10 : ℚ) ^ (sr.1 * (digitsToNat p.1 : ℤ)))
    else none

/-- Reads an unsigned decimal mantissa (`digits`, `digits.digits`,
`digits.`, or `.digits`) and returns its value with the unread rest. -/
def mantissa (cs : List Char) : Option (ℚ × List Char) :=
  let ip := spanDigits cs
  match ip.2 with
  | '.' :: r2 =>
    let fp := spanDigits r2
    if ip.1 = [] ∧ fp.1 = [] then none
    else some ((digitsToNat ip.1 : ℚ) + (digitsToNat fp.1 : ℚ) / (10 : ℚ) ^ fp.1.length, fp.2)
  | r1 => if ip.1 = [] then none else some ((digitsToNat ip.1 : ℚ), r1)

/-- Unsigned part of `pyFloat`: mantissa followed by an optional exponent,
with nothing left over. -/
def pyNum (cs : List Char) : Option ℚ :=
  match mantissa cs with
  | none => none
  | some (m, rest) => expPart m rest

/-- Model of Python's `float(...)` applied to a string, on the finite
decimal literals that occur in SVG data: surrounding whitespace is
stripped, then an optional sign, decimal mantissa and optional exponent
must consume the whole string; any other string fails (raises
`ValueError` in Python, `none` here). -/
def pyFloat (cs : List Char) : Option ℚ :=
  match stripChars cs with
  | '+' :: r => pyNum r
  | '-' :: r => (pyNum r).map (fun q => -q)
  | r => pyNum r

/-- Worker for whitespace splitting: `cur` is the reversed current word. -/
def splitWSAux : List Char → List Char → List (List Char)
  | cur, [] => if cur = [] then [] else [cur.reverse]
  | cur, c :: t =>
    if c.isWhitespace then
      if cur = [] then splitWSAux [] t else cur.reverse :: splitWSAux [] t
    else splitWSAux (c :: cur) t

/-- Python's argumentless `str.split()`: splits on runs of whitespace and
drops empty words. -/
def pySplitWhite (l : List Char) : List (List Char) :=
  splitWSAux [] l

/-- The tokenisation both core functions apply to a `d` attribute:
`d_attr.replace(',', ' ').split()`. -/
def tokenizeD (s : String) : List (List Char) :=
  pySplitWhite (s.toList.map (fun c => if c = ',' then ' ' else c))

/-- Result of one iteration of the command loop of `parse_d_attribute`:
either a raised Python exception or the updated loop state (remaining
tokens, current point, emitted points). -/
inductive StepRes where
  | err : PyErr → StepRes
  | cont : List (List Char) → ℚ × ℚ → List (ℚ × ℚ) → StepRes
deriving DecidableEq

/-- One iteration of the command loop of `parse_d_attribute` (source lines
90–107), for the command token `cmd` followed by the tokens `rest`, with
current point `cp` and the points emitted so far:
`M`/`L` consume two coordinates and emit the new current point, `H`/`V`
consume one and update one coordinate, `Z` re-emits the first recorded
point (an `IndexError` on an empty point list), and any other token is
skipped.  A missing coordinate token raises `IndexError`, an unparsable
one `ValueError`, in the source's evaluation order. -/
def parse_d_step (scale : ℚ) (cmd : List Char) (rest : List (List Char))
    (cp : ℚ × ℚ) (points : List (ℚ × ℚ)) : StepRes :=
  if cmd = ['M'] ∨ cmd = ['L'] then
    match rest with
    | [] => StepRes.err PyErr.indexError
    | t1 :: rest1 =>
      match pyFloat t1 with
      | none => StepRes.err PyErr.valueError
      | some x =>
        match rest1 with
        | [] => StepRes.err PyErr.indexError
        | t2 :: rest2 =>
          match pyFloat t2 with
          | none => StepRes.err PyErr.valueError
          | some y =>
            StepRes.cont rest2 (x * scale, y * scale) (points ++ [(x * scale, y * scale)])
  else if cmd = ['H'] then
    match rest with
    | [] => StepRes.err PyErr.indexError
    | t1 :: rest2 =>
      match pyFloat t1 with
      | none => StepRes.err PyErr.valueError
      | some x => StepRes.cont rest2 (x * scale, cp.2) (points ++ [(x * scale, cp.2)])
  else if cmd = ['V'] then
    match rest with
    | [] => StepRes.err PyErr.indexError
    | t1 :: rest2 =>
      match pyFloat t1 with
      | none => StepRes.err PyErr.valueError
      | some y => StepRes.cont rest2 (cp.1, y * scale) (points ++ [(cp.1, y * scale)])
  else if cmd = ['Z'] then
    match points with
    | [] => StepRes.err PyErr.indexError
    | p :: _ => StepRes.cont rest cp (points ++ [p])
  else
    StepRes.cont rest cp points

/-- The `while i < len(commands)` loop of `parse_d_attribute`, driven by a
fuel argument so that the recursion is structural.  Every iteration
consumes at least one token (`parse_d_step_cont_length`), so any fuel of
at least the token count gives the loop's true value
(`parse_d_loop_fuel`); the fuel-exhausted arm is never reached from
`parse_d_go`. -/
def parse_d_loop (scale : ℚ) : Nat → List (List Char) → ℚ × ℚ → List (ℚ × ℚ) →
    Except PyErr (List (ℚ × ℚ))
  | _, [], _, points => Except.ok points
  | 0, _ :: _, _, points => Except.ok points
  | n + 1, cmd :: rest, cp, points =>
    match parse_d_step scale cmd rest cp points with
    | StepRes.err e => Except.error e
    | StepRes.cont rest2 cp2 points2 => parse_d_loop scale n rest2 cp2 points2

/-- The command loop of `parse_d_attribute` on a token list, with current
point `cp` and already-emitted points: returns the final point list or
the Python exception the source would raise. -/
def parse_d_go (scale : ℚ) (l : List (List Char)) (cp : ℚ × ℚ)
    (points : List (ℚ × ℚ)) : Except PyErr (List (ℚ × ℚ)) :=
  parse_d_loop scale l.length l cp points

/-- Embedding of `parse_d_attribute(d_attr, scale=100)` (source lines
73–109): tokenises the `d` string and runs the command loop from current
point `(0, 0)` with no points emitted. -/
def parse_d_attribute (d_attr : String) (scale : ℚ) : Except PyErr (List (ℚ × ℚ)) :=
  parse_d_go scale (tokenizeD d_attr) (0, 0) []

/-- An element of the parsed XML document, as the source reads it: a tag
string and the three attributes the filter consults (`element.attrib.get`
returns `none` when the attribute is missing). -/
structure SvgElement where
  tag : String
  id : Option String
  d : Option String
  style : Option String
deriving DecidableEq

/-- The dictionary `{"id": ..., "d": ..., "style": ...}` the filter appends
to `wall_paths` for an accepted element (source lines 59–63). -/
structure PathRecord where
  id : String
  d : String
  style : String
deriving DecidableEq

/-- The characters of `"stroke-width"`, the substring the source tests for
with `in`. -/
def swKey : List Char := ['s', 't', 'r', 'o', 'k', 'e', '-', 'w', 'i', 'd', 't', 'h']

/-- The characters of `"stroke-width:"`, the separator the source splits
the style string on. -/
def swSep : List Char := swKey ++ [':']

/-- The characters of `"px"`, the unit suffix the source strips with
`replace`. -/
def pxKey : List Char := ['p', 'x']

/-- The stroke-width extraction of the wall filter (source lines 41–47):
if `"stroke-width"` occurs in the style string, take
`style.split("stroke-width:")[1].split(";")[0].replace("px", "")` and
parse it as a float, keeping 0 on a `ValueError`.  The index `[1]` is
outside the `try` block's caught exception class, so when
`"stroke-width:"` (with the colon) does not occur the `IndexError`
escapes. -/
def extractStrokeWidthChars (cs : List Char) : Except PyErr ℚ :=
  if strContains swKey cs then
    match (pySplit swSep cs).get? 1 with
    | none => Except.error PyErr.indexError
    | some part1 =>
      match pyFloat (pyReplace pxKey [] ((charSplit ';' part1).headD [])) with
      | none => Except.ok 0
      | some v => Except.ok v
  else Except.ok 0

/-- String-level wrapper for `extractStrokeWidthChars`. -/
def extractStrokeWidth (style_attr : String) : Except PyErr ℚ :=
  extractStrokeWidthChars style_attr.toList

/-- The segment-length probe of the wall filter (source lines 52–56):
tokenize the `d` attribute, require at least 4 tokens, and read tokens
1, 2, 4 and 5 as the four floats `(x1, y1, x2, y2)`; any missing token
(`IndexError`) or unparsable token (`ValueError`) is caught by the source
and excludes the element, so the probe is an `Option`. -/
def probeSegment (d_attr : String) : Option (ℚ × ℚ × ℚ × ℚ) :=
  let commands := tokenizeD d_attr
  if 4 ≤ commands.length then
    match (commands.get? 1).bind pyFloat, (commands.get? 2).bind pyFloat,
        (commands.get? 4).bind pyFloat, (commands.get? 5).bind pyFloat with
    | some x1, some y1, some x2, some y2 => some (x1, y1, x2, y2)
    | _, _, _, _ => none
  else none

/-- Embedding of `calculate_distance` (source lines 7–9): the Euclidean
distance between two points, with `math.sqrt` modelled by `Real.sqrt`. -/
noncomputable def calculate_distance (x1 y1 x2 y2 : ℚ) : ℝ :=
  Real.sqrt (((x2 - x1) ^ 2 + (y2 - y1) ^ 2 : ℚ) : ℝ)

/-- Executable form of the comparison
`calculate_distance(x1, y1, x2, y2) >= min_segment_length` (source line
58), decided on rationals by comparing squares; `segTest_eq_dist_le`
proves it equal to the real comparison. -/
def segTest (x1 y1 x2 y2 m : ℚ) : Bool :=
  decide (m ≤ 0) || decide (m ^ 2 ≤ (x2 - x1) ^ 2 + (y2 - y1) ^ 2)

/-- The body of the `for element in root.iter()` loop (source lines
33–65) for one element: `ok none` when the element is skipped or filtered
out, `ok (some record)` when it is appended to `wall_paths`, `error` when
the loop body raises an uncaught exception. -/
def processElement (min_segment_length : ℚ) (e : SvgElement) : Except PyErr (Option PathRecord) :=
  if (charSplit '}' e.tag.toList).getLastD [] = "path".toList then
    match extractStrokeWidth (e.style.getD "") with
    | Except.error err => Except.error err
    | Except.ok stroke_width =>
      if (1 : ℚ) / 2 < stroke_width then
        match probeSegment (e.d.getD "") with
        | some (x1, y1, x2, y2) =>
          if segTest x1 y1 x2 y2 min_segment_length then
            Except.ok (some { id := e.id.getD "N/A", d := e.d.getD "", style := e.style.getD "" })
          else Except.ok none
        | none => Except.ok none
      else Except.ok none
  else Except.ok none

/-- The record an accepted element contributes. -/
def mkRecord (e : SvgElement) : PathRecord :=
  { id := e.id.getD "N/A", d := e.d.getD "", style := e.style.getD "" }

/-- The element loop of `parse_svg_for_walls`: processes the document's
elements in `root.iter()` order, accumulating the accepted records; an
uncaught exception in any iteration aborts the whole call. -/
def wallLoop (min_segment_length : ℚ) : List SvgElement → Except PyErr (List PathRecord)
  | [] => Except.ok []
  | e :: rest =>
    match processElement min_segment_length e with
    | Except.error err => Except.error err
    | Except.ok none => wallLoop min_segment_length rest
    | Except.ok (some r) => (wallLoop min_segment_length rest).map (fun l => r :: l)

/-- The console output and result of a run of `parse_svg_for_walls`;
`print` calls are modelled as the `messages` list (the sample-data print
of source line 69 is not modelled). -/
structure RunOutput where
  messages : List String
  walls : List PathRecord
deriving DecidableEq

/-- Embedding of `parse_svg_for_walls(svg_file_path, min_segment_length=10)`
(source lines 11–71).  The call to the external XML library `ET.parse` is
modelled by the `doc` argument: `Except.error msg` is a raised
`ET.ParseError` carrying message `msg`, `Except.ok elements` is a
successfully parsed document whose `root.iter()` yields `elements`. -/
def parse_svg_for_walls (doc : Except String (List SvgElement)) (min_segment_length : ℚ) :
    Except PyErr RunOutput :=
  match doc with
  | Except.error msg => Except.ok { messages := ["Error parsing SVG file: " ++ msg], walls := [] }
  | Except.ok elements =>
    match wallLoop min_segment_length elements with
    | Except.error err => Except.error err
    | Except.ok ws =>
      Except.ok
        { messages :=
            ["Detected " ++ toString ws.length ++
              " potential wall paths after filtering by segment length."],
          walls := ws }

/-- The wall-filter acceptance predicate as the specification states it:
the namespace-stripped tag is `"path"`, the style yields a stroke-width
strictly above 0.5, and the probed first segment is long enough.  Stated
as an executable Boolean; `wall_filter_spec` relates it to the claim's
real-valued Euclidean-distance formulation and to the filter output. -/
def specWallB (m : ℚ) (e : SvgElement) : Bool :=
  if (charSplit '}' e.tag.toList).getLastD [] = "path".toList then
    match extractStrokeWidth (e.style.getD "") with
    | Except.error _ => false
    | Except.ok w =>
      if (1 : ℚ) / 2 < w then
        match probeSegment (e.d.getD "") with
        | some (x1, y1, x2, y2) => segTest x1 y1 x2 y2 m
        | none => false
      else false
  else false

/-- A list of tokens has a bad command occurrence: an `M`/`L` followed by
fewer than two tokens, an `H`/`V` with no following token, or a command
whose consumed coordinate token is not a float literal. -/
def localBadTok (cmd : List Char) (suf : List (List Char)) : Bool :=
  if cmd = ['M'] ∨ cmd = ['L'] then
    match suf with
    | a :: b :: _ => (pyFloat a).isNone || (pyFloat b).isNone
    | _ => true
  else if cmd = ['H'] ∨ cmd = ['V'] then
    match suf with
    | a :: _ => (pyFloat a).isNone
    | [] => true
  else false

/-- Scans a token list for a bad command occurrence (see `localBadTok`). -/
def hasBadTok : List (List Char) → Bool
  | [] => false
  | c :: suf => localBadTok c suf || hasBadTok suf

example : specWallB 10
    { tag := "path", id := none, d := some "M 0 0 L 20 0", style := some "stroke-width:2px;" } =
    true := by decide

example : hasBadTok (tokenizeD "M 1") = true := by decide

example : extractStrokeWidth "fill:none;stroke-width:0.75px;" = Except.ok (75 / 100) := by decide

example : extractStrokeWidth "stroke-width:9;stroke-width:2px;" = Except.ok 9 := by decide

example : extractStrokeWidth "stroke-width" = Except.error PyErr.indexError := by decide

example : extractStrokeWidth "fill:none" = Except.ok 0 := by decide

example : probeSegment "M 0 0 L 20 0" = some (0, 0, 20, 0) := by decide

example : processElement 10
    { tag := "\x7bhttp://www.w3.org/2000/svg\x7dpath", id := some "w1",
      d := some "M 0 0 L 20 0", style := some "stroke-width:2px;" } =
    Except.ok (some { id := "w1", d := "M 0 0 L 20 0", style := "stroke-width:2px;" }) := by
  decide

example : processElement 10
    { tag := "path", id := none, d := some "M 0 0 L 5 0", style := some "stroke-width:2px;" } =
    Except.ok none := by decide

example : parse_d_attribute "M 1 1 L 2 2 H 5 V 9 Z" 1 =
    Except.ok [(1, 1), (2, 2), (5, 2), (5, 9), (1, 1)] := by decide

example : parse_d_attribute "" 100 = Except.ok [] := by decide

example : pyFloat "0.50001".toList = some (50001 / 100000) := by decide

example : pyFloat "-2.5e1".toList = some (-25) := by decide

example : pyFloat "M".toList = none := by decide

/-! ### Helper lemmas about the string-operation models -/

theorem parse_d_step_cont_length (scale : ℚ) (cmd : List Char) (rest : List (List Char))
    (cp : ℚ × ℚ) (points : List (ℚ × ℚ)) (r : List (List Char)) (c : ℚ × ℚ)
    (p : List (ℚ × ℚ)) (h : parse_d_step scale cmd rest cp points = StepRes.cont r c p) :
    r.length ≤ rest.length := by
  by_cases hML : cmd = ['M'] ∨ cmd = ['L']
  · rcases rest with _ | ⟨t1, rest1⟩
    · simp [parse_d_step, hML] at h
    · rcases hf1 : pyFloat t1 with _ | x
      · simp [parse_d_step, hML, hf1] at h
      · rcases rest1 with _ | ⟨t2, rest2⟩
        · simp [parse_d_step, hML, hf1] at h
        · rcases hf2 : pyFloat t2 with _ | y
          · simp [parse_d_step, hML, hf1, hf2] at h
          · simp only [parse_d_step, hML, if_true, hf1, hf2] at h
            obtain ⟨h1, -, -⟩ := StepRes.cont.inj h
            subst h1
            simp
            omega
  · by_cases hH : cmd = ['H']
    · rcases rest with _ | ⟨t1, rest2⟩
      · simp [parse_d_step, hML, hH] at h
      · rcases hf1 : pyFloat t1 with _ | x
        · simp [parse_d_step, hML, hH, hf1] at h
        · simp only [parse_d_step, hML, hH, if_false, eq_self_iff_true, if_true, hf1] at h
          obtain ⟨h1, -, -⟩ := StepRes.cont.inj h
          subst h1
          simp
    · by_cases hV : cmd = ['V']
      · rcases rest with _ | ⟨t1, rest2⟩
        · simp [parse_d_step, hML, hH, hV] at h
        · rcases hf1 : pyFloat t1 with _ | y
          · simp [parse_d_step, hML, hH, hV, hf1] at h
          · simp only [parse_d_step, hML, hH, hV, if_false, eq_self_iff_true, if_true,
              hf1] at h
            obtain ⟨h1, -, -⟩ := StepRes.cont.inj h
            subst h1
            simp
      · by_cases hZ : cmd = ['Z']
        · rcases points with _ | ⟨p0, pts⟩
          · simp [parse_d_step, hML, hH, hV, hZ] at h
          · simp only [parse_d_step, hML, hH, hV, hZ, if_false, eq_self_iff_true,
              if_true] at h
            obtain ⟨h1, -, -⟩ := StepRes.cont.inj h
            subst h1
            exact le_rfl
        · simp only [parse_d_step, hML, hH, hV, hZ, if_false] at h
          obtain ⟨h1, -, -⟩ := StepRes.cont.inj h
          subst h1
          exact le_rfl

theorem parse_d_loop_fuel (scale : ℚ) (n1 : Nat) :
    ∀ (n2 : Nat) (l : List (List Char)) (cp : ℚ × ℚ) (pts : List (ℚ × ℚ)),
      l.length ≤ n1 → l.length ≤ n2 →
      parse_d_loop scale n1 l cp pts = parse_d_loop scale n2 l cp pts := by
  induction n1 with
  | zero =>
    intro n2 l cp pts h1 h2
    have hl : l = [] := List.length_eq_zero.mp (Nat.le_zero.mp h1)
    subst hl
    simp [parse_d_loop]
  | succ n ih =>
    intro n2 l cp pts h1 h2
    rcases l with _ | ⟨cmd, rest⟩
    · simp [parse_d_loop]
    · rcases n2 with _ | n2'
      · simp at h2
      · simp only [parse_d_loop]
        rcases hst : parse_d_step scale cmd rest cp pts with e | ⟨r, c, p⟩
        · rfl
        · have hr := parse_d_step_cont_length scale cmd rest cp pts r c p hst
          have hl1 : r.length ≤ n := by simp only [List.length_cons] at h1; omega
          have hl2 : r.length ≤ n2' := by simp only [List.length_cons] at h2; omega
          exact ih n2' r c p hl1 hl2

theorem parse_d_go_nil (scale : ℚ) (cp : ℚ × ℚ) (pts : List (ℚ × ℚ)) :
    parse_d_go scale [] cp pts = Except.ok pts := rfl

theorem parse_d_go_cons (scale : ℚ) (cmd : List Char) (rest : List (List Char))
    (cp : ℚ × ℚ) (pts : List (ℚ × ℚ)) :
    parse_d_go scale (cmd :: rest) cp pts =
      match parse_d_step scale cmd rest cp pts with
      | StepRes.err e => Except.error e
      | StepRes.cont r c p => parse_d_go scale r c p := by
  show parse_d_loop scale (cmd :: rest).length (cmd :: rest) cp pts = _
  rw [show (cmd :: rest).length = rest.length + 1 from rfl]
  simp only [parse_d_loop]
  rcases hst : parse_d_step scale cmd rest cp pts with e | ⟨r, c, p⟩
  · rfl
  · exact parse_d_loop_fuel scale rest.length r.length r c p
      (parse_d_step_cont_length scale cmd rest cp pts r c p hst) le_rfl


theorem charSplit_ne_nil (sep : Char) (l : List Char) : charSplit sep l ≠ [] := by
  induction l with
  | nil => simp [charSplit]
  | cons c t ih =>
    simp only [charSplit]
    by_cases hc : c = sep
    · simp [hc]
    · simp only [hc, if_false]
      rcases h : charSplit sep t with _ | ⟨h0, r⟩
      · exact absurd h ih
      · simp

theorem charSplit_length_two (sep : Char) (l : List Char) (h : sep ∈ l) :
    2 ≤ (charSplit sep l).length := by
  induction l with
  | nil => cases h
  | cons c t ih =>
    simp only [charSplit]
    by_cases hc : c = sep
    · simp only [hc, if_true, List.length_cons]
      have h1 : 1 ≤ (charSplit sep t).length :=
        List.length_pos.mpr (charSplit_ne_nil sep t)
      omega
    · have hmem : sep ∈ t := by
        rcases List.mem_cons.mp h with h' | h'
        · exact absurd h'.symm hc
        · exact h'
      simp only [hc, if_false]
      rcases hcs : charSplit sep t with _ | ⟨h0, r⟩
      · exact absurd hcs (charSplit_ne_nil sep t)
      · have h2 := ih hmem
        rw [hcs] at h2
        simpa using h2

theorem charSplit_not_mem (sep : Char) (l : List Char) (h : sep ∉ l) :
    charSplit sep l = [l] := by
  induction l with
  | nil => rfl
  | cons c t ih =>
    have hc : ¬ c = sep := fun hcs => h (by simp [hcs])
    have ht : sep ∉ t := fun hts => h (by simp [hts])
    simp only [charSplit, hc, if_false, ih ht]

theorem charSplit_append_sep_getLastD (sep : Char) (l m : List Char) :
    (charSplit sep (l ++ sep :: m)).getLastD [] = (charSplit sep m).getLastD [] := by
  induction l with
  | nil =>
    have h1 : charSplit sep ([] ++ sep :: m) = [] :: charSplit sep m := by
      simp [charSplit]
    rw [h1, List.getLastD_cons [] [] (charSplit sep m)]
  | cons c l' ih =>
    by_cases hc : c = sep
    · have h1 : charSplit sep ((c :: l') ++ sep :: m) = [] :: charSplit sep (l' ++ sep :: m) := by
        simp [charSplit, hc]
      rw [h1, List.getLastD_cons [] [] (charSplit sep (l' ++ sep :: m)), ih]
    · rcases hcs : charSplit sep (l' ++ sep :: m) with _ | ⟨h0, r⟩
      · exact absurd hcs (charSplit_ne_nil sep _)
      · have h1 : charSplit sep ((c :: l') ++ sep :: m) = (c :: h0) :: r := by
          simp [charSplit, hc, hcs]
        have hlen : 2 ≤ (charSplit sep (l' ++ sep :: m)).length :=
          charSplit_length_two sep _ (by simp)
        rw [hcs] at hlen
        rcases r with _ | ⟨r0, r'⟩
        · simp at hlen
        · rw [h1, ← ih, hcs]
          rw [List.getLastD_cons [] (c :: h0) (r0 :: r'), List.getLastD_cons [] h0 (r0 :: r')]
          rw [List.getLastD_cons (c :: h0) r0 r', List.getLastD_cons h0 r0 r']

theorem isPre_append_self (s t : List Char) : isPre s (s ++ t) = true := by
  induction s with
  | nil => rfl
  | cons a s' ih => simp [isPre, ih]

theorem splitFirst_isSome_eq_contains (sep l : List Char) :
    (splitFirst sep l).isSome = strContains sep l := by
  induction l with
  | nil =>
    simp only [splitFirst, strContains]
    by_cases h : isPre sep [] = true
    · simp [h]
    · simp [h, Bool.eq_false_iff.mpr h]
  | cons c t ih =>
    simp only [splitFirst, strContains]
    by_cases h : isPre sep (c :: t) = true
    · simp [h]
    · simp [h, Bool.eq_false_iff.mpr h, ih]

theorem strContains_of_isPre (sep l : List Char) (h : isPre sep l = true) :
    strContains sep l = true := by
  cases l with
  | nil => simpa [strContains] using h
  | cons c t => simp [strContains, h]

theorem strContains_mid (sep pre rest : List Char) :
    strContains sep (pre ++ (sep ++ rest)) = true := by
  induction pre with
  | nil =>
    simp only [List.nil_append]
    exact strContains_of_isPre sep (sep ++ rest) (isPre_append_self sep rest)
  | cons c pre' ih => simp [strContains, ih]

theorem splitFirst_first_occurrence (sep pre rest : List Char)
    (h : ∀ k < pre.length, isPre sep ((pre ++ (sep ++ rest)).drop k) = false) :
    splitFirst sep (pre ++ (sep ++ rest)) = some (pre, rest) := by
  induction pre with
  | nil =>
    simp only [List.nil_append]
    cases hs : sep with
    | nil =>
      cases rest with
      | nil => simp [splitFirst, isPre]
      | cons r0 rs => simp [splitFirst, isPre]
    | cons c s =>
      have h1 : isPre (c :: s) (c :: (s ++ rest)) = true := by
        have := isPre_append_self (c :: s) rest
        simpa using this
      have h2 : List.drop (c :: s).length (c :: (s ++ rest)) = rest := by
        simp only [List.length_cons, List.drop_succ_cons]
        exact List.drop_left s rest
      simp [splitFirst, h1, h2]
  | cons c pre' ih =>
    have h0 : isPre sep (c :: (pre' ++ (sep ++ rest))) = false := by
      have := h 0 (by simp)
      simpa using this
    have h' : ∀ k < pre'.length, isPre sep ((pre' ++ (sep ++ rest)).drop k) = false := by
      intro k hk
      have := h (k + 1) (by simp; omega)
      simpa using this
    simp [splitFirst, h0, ih h']

theorem splitFirst_none_of_no_occurrence (sep l : List Char)
    (h : ∀ k, isPre sep (l.drop k) = false) : splitFirst sep l = none := by
  induction l with
  | nil =>
    have h0 := h 0
    simp only [List.drop_zero] at h0
    simp [splitFirst, h0]
  | cons c t ih =>
    have h0 := h 0
    simp only [List.drop_zero] at h0
    have h' : ∀ k, isPre sep (t.drop k) = false := fun k => by
      have := h (k + 1)
      simpa using this
    simp [splitFirst, h0, ih h']

theorem no_occurrence_of_not_contains (sep l : List Char)
    (h : strContains sep l = false) : ∀ k, isPre sep (l.drop k) = false := by
  induction l with
  | nil =>
    intro k
    simp only [strContains] at h
    simpa using h
  | cons c t ih =>
    intro k
    simp only [strContains, Bool.or_eq_false_iff] at h
    cases k with
    | zero => simpa using h.1
    | succ k' => simpa using ih h.2 k'

theorem pySplit_get_one (sep hay : List Char) :
    (pySplit sep hay).get? 1 = (splitFirst sep hay).map (fun p => firstPart sep p.2) := by
  cases hay with
  | nil =>
    by_cases hp : isPre sep [] = true
    · have hsf : splitFirst sep [] = some ([], []) := by simp [splitFirst, hp]
      have h1 : pySplit sep [] = [[], []] := by
        show pySplitF sep (0 + 1) [] = _
        simp [pySplitF, hsf]
      rw [h1, hsf]
      simp [firstPart, hsf]
    · have hsf : splitFirst sep [] = none := by simp [splitFirst, hp]
      have h1 : pySplit sep [] = [[]] := by
        show pySplitF sep (0 + 1) [] = _
        simp [pySplitF, hsf]
      rw [h1, hsf]
      simp
  | cons c t =>
    rcases hsf : splitFirst sep (c :: t) with _ | ⟨a, b⟩
    · simp [pySplit, pySplitF, hsf]
    · show (pySplitF sep (t.length + 2) (c :: t)).get? 1 = _
      rw [show t.length + 2 = (t.length + 1) + 1 from rfl]
      simp only [pySplitF, hsf]
      rcases hsf2 : splitFirst sep b with _ | ⟨a2, b2⟩
      · simp [pySplitF, hsf2, firstPart]
      · simp [pySplitF, hsf2, firstPart]

theorem pySplit_get_one_of_contains (sep hay : List Char)
    (h : strContains sep hay = true) : ∃ p, (pySplit sep hay).get? 1 = some p := by
  rw [pySplit_get_one]
  have hs : (splitFirst sep hay).isSome = true := by
    rw [splitFirst_isSome_eq_contains, h]
  rcases Option.isSome_iff_exists.mp hs with ⟨pr, hpr⟩
  exact ⟨firstPart sep pr.2, by rw [hpr]; rfl⟩

theorem isPre_head_ne (c : Char) (s : List Char) (d : Char) (t : List Char)
    (h : ¬ c = d) : isPre (c :: s) (d :: t) = false := by
  simp [isPre, h]

theorem no_occurrence_in_front (c : Char) (s w X : List Char) (h : c ∉ w) :
    ∀ k < w.length, isPre (c :: s) ((w ++ X).drop k) = false := by
  induction w with
  | nil => simp
  | cons a w' ih =>
    intro k hk
    cases k with
    | zero =>
      have hca : ¬ c = a := fun hca => h (by simp [hca])
      simpa using isPre_head_ne c s a (w' ++ X) hca
    | succ k' =>
      have h' : c ∉ w' := fun hmem => h (by simp [hmem])
      have hk' : k' < w'.length := by simpa using hk
      simpa using ih h' k' hk'

theorem pyReplace_strip_suffix (pat w : List Char) (hpat : pat ≠ [])
    (h : ∀ k < w.length, isPre pat ((w ++ (pat ++ [])).drop k) = false) :
    pyReplace pat [] (w ++ pat) = w := by
  have hsf : splitFirst pat (w ++ (pat ++ [])) = some (w, []) :=
    splitFirst_first_occurrence pat w [] h
  have hnil : splitFirst pat [] = none := by
    rcases pat with _ | ⟨c, s⟩
    · exact absurd rfl hpat
    · simp [splitFirst, isPre]
  have hlen : (w ++ pat).length = w.length + pat.length := by simp
  show pyReplaceF pat [] ((w ++ pat).length + 1) (w ++ pat) = w
  rw [hlen]
  rcases pat with _ | ⟨c, s⟩
  · exact absurd rfl hpat
  · rw [show w.length + (c :: s).length + 1 = (w.length + (c :: s).length) + 1 from rfl]
    simp only [pyReplaceF]
    rw [show (w ++ (c :: s) : List Char) = w ++ ((c :: s) ++ []) from by simp]
    rw [hsf]
    rcases hn : w.length + (c :: s).length with _ | n
    · simp [List.length_cons] at hn
    · simp only [pyReplaceF, hnil]
      simp

theorem segTest_eq_dist_le (x1 y1 x2 y2 m : ℚ) :
    segTest x1 y1 x2 y2 m = true ↔ (m : ℝ) ≤ calculate_distance x1 y1 x2 y2 := by
  unfold segTest calculate_distance
  by_cases hm : m ≤ 0
  · constructor
    · intro _
      have hm' : (m : ℝ) ≤ 0 := by exact_mod_cast hm
      exact le_trans hm' (Real.sqrt_nonneg _)
    · intro _
      simp [hm]
  · have hm' : (0 : ℚ) < m := lt_of_not_ge hm
    have hmr : (0 : ℝ) < (m : ℝ) := by exact_mod_cast hm'
    rw [Real.le_sqrt' hmr]
    constructor
    · intro h2
      simp only [Bool.or_eq_true, decide_eq_true_eq] at h2
      rcases h2 with h2 | h2
      · exact absurd h2 hm
      · calc ((m : ℝ)) ^ 2 = ((m ^ 2 : ℚ) : ℝ) := by push_cast; ring
          _ ≤ _ := by exact_mod_cast h2
    · intro h2
      have h3 : m ^ 2 ≤ (x2 - x1) ^ 2 + (y2 - y1) ^ 2 := by
        have h4 : ((m ^ 2 : ℚ) : ℝ) ≤ (((x2 - x1) ^ 2 + (y2 - y1) ^ 2 : ℚ) : ℝ) := by
          calc ((m ^ 2 : ℚ) : ℝ) = ((m : ℝ)) ^ 2 := by push_cast; ring
            _ ≤ _ := h2
        exact_mod_cast h4
      simp [h3]

theorem extractStrokeWidth_ok (s : String)
    (h : strContains swKey s.toList = true → strContains swSep s.toList = true) :
    ∃ w, extractStrokeWidth s = Except.ok w := by
  by_cases hc : strContains swKey s.toList = true
  · rcases pySplit_get_one_of_contains swSep s.toList (h hc) with ⟨p, hp⟩
    rcases hf : pyFloat (pyReplace pxKey [] ((charSplit ';' p).headD [])) with _ | v
    · refine ⟨0, ?_⟩
      simp only [extractStrokeWidth, extractStrokeWidthChars, hc, eq_self_iff_true, if_true,
        hp, hf]
    · refine ⟨v, ?_⟩
      simp only [extractStrokeWidth, extractStrokeWidthChars, hc, eq_self_iff_true, if_true,
        hp, hf]
  · refine ⟨0, ?_⟩
    have hc' : strContains swKey s.toList = false := Bool.eq_false_iff.mpr hc
    simp only [extractStrokeWidth, extractStrokeWidthChars, hc', Bool.false_eq_true, if_false]

theorem processElement_cases (m : ℚ) (e : SvgElement) :
    (processElement m e = Except.ok (some (mkRecord e)) ∧ specWallB m e = true) ∨
    (processElement m e = Except.ok none ∧ specWallB m e = false) ∨
    (∃ err, processElement m e = Except.error err ∧ specWallB m e = false) := by
  by_cases htag : (charSplit '}' e.tag.toList).getLastD [] = "path".toList
  · rcases hsw : extractStrokeWidth (e.style.getD "") with err | w
    · refine Or.inr (Or.inr ⟨err, ?_, ?_⟩)
      · simp only [processElement, htag, eq_self_iff_true, if_true, hsw]
      · simp only [specWallB, htag, eq_self_iff_true, if_true, hsw]
    · by_cases hw : (1 : ℚ) / 2 < w
      · rcases hpr : probeSegment (e.d.getD "") with _ | ⟨x1, y1, x2, y2⟩
        · refine Or.inr (Or.inl ⟨?_, ?_⟩)
          · simp only [processElement, htag, eq_self_iff_true, if_true, hsw, hw, hpr]
          · simp only [specWallB, htag, eq_self_iff_true, if_true, hsw, hw, hpr]
        · rcases hseg : segTest x1 y1 x2 y2 m with _ | _
          · refine Or.inr (Or.inl ⟨?_, ?_⟩)
            · simp only [processElement, htag, eq_self_iff_true, if_true, hsw, hw, hpr, hseg,
                Bool.false_eq_true, if_false]
            · simp only [specWallB, htag, eq_self_iff_true, if_true, hsw, hw, hpr, hseg]
          · refine Or.inl ⟨?_, ?_⟩
            · simp only [processElement, htag, eq_self_iff_true, if_true, hsw, hw, hpr, hseg,
                if_true, mkRecord]
            · simp only [specWallB, htag, eq_self_iff_true, if_true, hsw, hw, hpr, hseg]
      · refine Or.inr (Or.inl ⟨?_, ?_⟩)
        · simp only [processElement, htag, eq_self_iff_true, if_true, hsw, hw, if_false]
        · simp only [specWallB, htag, eq_self_iff_true, if_true, hsw, hw, if_false]
  · refine Or.inr (Or.inl ⟨?_, ?_⟩)
    · simp only [processElement, htag, if_false]
    · simp only [specWallB, htag, if_false]

theorem processElement_no_error (m : ℚ) (e : SvgElement)
    (h : strContains swKey ((e.style.getD "").toList) = true →
      strContains swSep ((e.style.getD "").toList) = true) :
    ∀ err, processElement m e ≠ Except.error err := by
  intro err hpe
  rcases processElement_cases m e with ⟨hpe', _⟩ | ⟨hpe', _⟩ | ⟨err', hpe', _⟩
  · rw [hpe] at hpe'; cases hpe'
  · rw [hpe] at hpe'; cases hpe'
  · rcases extractStrokeWidth_ok (e.style.getD "") h with ⟨w, hw⟩
    by_cases htag : (charSplit '}' e.tag.toList).getLastD [] = "path".toList
    · simp only [processElement, htag, eq_self_iff_true, if_true, hw] at hpe
      by_cases hww : (1 : ℚ) / 2 < w
      · rcases hpr : probeSegment (e.d.getD "") with _ | ⟨x1, y1, x2, y2⟩
        · simp only [hww, if_true, hpr] at hpe
          cases hpe
        · simp only [hww, if_true, hpr] at hpe
          rcases hseg : segTest x1 y1 x2 y2 m with _ | _ <;>
            simp only [hseg, Bool.false_eq_true, if_false, if_true] at hpe <;> cases hpe
      · simp only [hww, if_false] at hpe
        cases hpe
    · simp only [processElement, htag, if_false] at hpe
      cases hpe

theorem wallLoop_total (m : ℚ) (elems : List SvgElement)
    (h : ∀ e ∈ elems, strContains swKey ((e.style.getD "").toList) = true →
      strContains swSep ((e.style.getD "").toList) = true) :
    ∃ res, wallLoop m elems = Except.ok res := by
  induction elems with
  | nil => exact ⟨[], rfl⟩
  | cons e rest ih =>
    have he := h e (by simp)
    have hrest : ∀ e' ∈ rest, strContains swKey ((e'.style.getD "").toList) = true →
        strContains swSep ((e'.style.getD "").toList) = true :=
      fun e' he' => h e' (by simp [he'])
    rcases ih hrest with ⟨res, hres⟩
    rcases processElement_cases m e with ⟨hpe, _⟩ | ⟨hpe, _⟩ | ⟨err, hpe, _⟩
    · exact ⟨mkRecord e :: res, by simp [wallLoop, hpe, hres, Except.map]⟩
    · exact ⟨res, by simp [wallLoop, hpe, hres]⟩
    · exact absurd hpe (processElement_no_error m e he err)

theorem wallLoop_ok_filterMap (m : ℚ) (elems : List SvgElement) (res : List PathRecord)
    (h : wallLoop m elems = Except.ok res) :
    res = elems.filterMap (fun e => if specWallB m e then some (mkRecord e) else none) := by
  induction elems generalizing res with
  | nil =>
    simp only [wallLoop] at h
    cases h
    simp
  | cons e rest ih =>
    rcases processElement_cases m e with ⟨hpe, hsp⟩ | ⟨hpe, hsp⟩ | ⟨err, hpe, hsp⟩
    · simp only [wallLoop, hpe] at h
      rcases hrest : wallLoop m rest with err2 | res2
      · rw [hrest] at h
        simp [Except.map] at h
      · rw [hrest] at h
        simp only [Except.map] at h
        cases h
        simp [List.filterMap_cons, hsp, ih res2 hrest]
    · simp only [wallLoop, hpe] at h
      simp [List.filterMap_cons, hsp, ih res h]
    · simp only [wallLoop, hpe] at h
      cases h

theorem probeSegment_eq_some_iff (d : String) (x1 y1 x2 y2 : ℚ) :
    probeSegment d = some (x1, y1, x2, y2) ↔
      (((tokenizeD d).get? 1).bind pyFloat = some x1 ∧
       ((tokenizeD d).get? 2).bind pyFloat = some y1 ∧
       ((tokenizeD d).get? 4).bind pyFloat = some x2 ∧
       ((tokenizeD d).get? 5).bind pyFloat = some y2) := by
  unfold probeSegment
  by_cases hlen : 4 ≤ (tokenizeD d).length
  · simp only [hlen, if_true]
    rcases h1 : ((tokenizeD d).get? 1).bind pyFloat with _ | v1 <;>
      rcases h2 : ((tokenizeD d).get? 2).bind pyFloat with _ | v2 <;>
        rcases h4 : ((tokenizeD d).get? 4).bind pyFloat with _ | v4 <;>
          rcases h5 : ((tokenizeD d).get? 5).bind pyFloat with _ | v5 <;>
            simp
  · simp only [hlen, if_false]
    constructor
    · intro h
      cases h
    · rintro ⟨-, -, -, h5⟩
      rcases Option.bind_eq_some.mp h5 with ⟨t5, ht5, -⟩
      rcases List.get?_eq_some.mp ht5 with ⟨hlt, -⟩
      omega

/-! ### Claim theorems -/

/-- C4: the path interpreter applied to `"M 1 1 L 2 2 H 5 V 9 Z"` with
scale 1 returns exactly the points (1,1), (2,2), (5,2), (5,9), (1,1)
(`M`/`L` set and emit the scaled current point, `H` replaces only x, `V`
replaces only y, `Z` re-emits the first recorded point), and the last
point of that sequence equals its first. -/
theorem path_interpreter_closing_example :
    parse_d_attribute "M 1 1 L 2 2 H 5 V 9 Z" 1 =
      Except.ok [(1, 1), (2, 2), (5, 2), (5, 9), (1, 1)] ∧
    ([(1, 1), (2, 2), (5, 2), (5, 9), (1, 1)] : List (ℚ × ℚ)).getLast? =
      ([(1, 1), (2, 2), (5, 2), (5, 9), (1, 1)] : List (ℚ × ℚ)).head? := by
  decide

/-- C8: the path interpreter applied to an empty `d` string returns the
empty point sequence without raising, for every scale. -/
theorem path_interpreter_empty_string (scale : ℚ) :
    parse_d_attribute "" scale = Except.ok [] := rfl

/-- C6: when the document is malformed XML (the external parse raises
`ET.ParseError` with message `msg`), `parse_svg_for_walls` reports an
error message and returns the empty sequence of wall paths, without
raising. -/
theorem malformed_xml_reported_empty (msg : String) (m : ℚ) :
    parse_svg_for_walls (Except.error msg) m =
      Except.ok { messages := ["Error parsing SVG file: " ++ msg], walls := [] } := rfl

/-- C5: whenever a `Z` token is processed before any point has been
emitted — in particular for every `d` string whose first token is `Z` —
the path interpreter raises an `IndexError` (indexing the first element
of the empty point list) instead of returning a result. -/
theorem z_on_empty_path_faults :
    (∀ (d : String) (scale : ℚ), (tokenizeD d).head? = some ['Z'] →
      parse_d_attribute d scale = Except.error PyErr.indexError) ∧
    (∀ (scale : ℚ) (rest : List (List Char)) (cp : ℚ × ℚ),
      parse_d_go scale (['Z'] :: rest) cp [] = Except.error PyErr.indexError) := by
  constructor
  · intro d scale h
    unfold parse_d_attribute
    rcases htok : tokenizeD d with _ | ⟨t, rest⟩
    · rw [htok] at h
      cases h
    · rw [htok] at h
      simp only [List.head?_cons, Option.some.injEq] at h
      subst h
      rw [parse_d_go_cons]
      simp [parse_d_step]
  · intro scale rest cp
    rw [parse_d_go_cons]
    simp [parse_d_step]

theorem z_on_empty_path_faults_witness :
    parse_d_attribute "Z 1 2" 100 = Except.error PyErr.indexError :=
  z_on_empty_path_faults.1 "Z 1 2" 100 (by decide)

/-- C9: a token that is not exactly one of the uppercase command letters
M, L, H, V, Z (lowercase letters and the unsupported C/S/Q/T/A commands
included) causes the interpreter to emit no point and advance by exactly
one token, continuing with the remaining tokens unchanged. -/
theorem unrecognized_token_skipped (scale : ℚ) (tok : List Char)
    (rest : List (List Char)) (cp : ℚ × ℚ) (points : List (ℚ × ℚ))
    (h1 : tok ≠ ['M']) (h2 : tok ≠ ['L']) (h3 : tok ≠ ['H']) (h4 : tok ≠ ['V'])
    (h5 : tok ≠ ['Z']) :
    parse_d_go scale (tok :: rest) cp points = parse_d_go scale rest cp points := by
  have hML : ¬ (tok = ['M'] ∨ tok = ['L']) := by
    rintro (h | h)
    exacts [h1 h, h2 h]
  rw [parse_d_go_cons]
  have hstep : parse_d_step scale tok rest cp points = StepRes.cont rest cp points := by
    simp [parse_d_step, hML, h3, h4, h5]
  rw [hstep]

theorem unrecognized_token_skipped_witness :
    parse_d_go 1 [['m'], ['C'], ['9']] (0, 0) [] = parse_d_go 1 [['C'], ['9']] (0, 0) [] :=
  unrecognized_token_skipped 1 ['m'] [['C'], ['9']] (0, 0) []
    (by decide) (by decide) (by decide) (by decide) (by decide)

theorem localBadTok_float (t : List Char) (x : ℚ) (suf : List (List Char))
    (h : pyFloat t = some x) : localBadTok t suf = false := by
  have hM : t ≠ ['M'] := by
    rintro rfl
    rw [show pyFloat ['M'] = none from by decide] at h
    cases h
  have hL : t ≠ ['L'] := by
    rintro rfl
    rw [show pyFloat ['L'] = none from by decide] at h
    cases h
  have hH : t ≠ ['H'] := by
    rintro rfl
    rw [show pyFloat ['H'] = none from by decide] at h
    cases h
  have hV : t ≠ ['V'] := by
    rintro rfl
    rw [show pyFloat ['V'] = none from by decide] at h
    cases h
  have hML : ¬ (t = ['M'] ∨ t = ['L']) := by
    rintro (rfl | rfl)
    exacts [hM rfl, hL rfl]
  have hHV : ¬ (t = ['H'] ∨ t = ['V']) := by
    rintro (rfl | rfl)
    exacts [hH rfl, hV rfl]
  simp [localBadTok, hML, hHV]

theorem hasBadTok_tail (cmd : List Char) (suf : List (List Char))
    (hloc : localBadTok cmd suf = false) (h : hasBadTok (cmd :: suf) = true) :
    hasBadTok suf = true := by
  simp only [hasBadTok, Bool.or_eq_true] at h
  rcases h with h | h
  · rw [hloc] at h
    cases h
  · exact h

theorem parse_d_go_error_of_bad (scale : ℚ) : ∀ (n : ℕ) (l : List (List Char)),
    l.length ≤ n → ∀ (cp : ℚ × ℚ) (pts : List (ℚ × ℚ)), hasBadTok l = true →
    ∃ err, parse_d_go scale l cp pts = Except.error err := by
  intro n
  induction n with
  | zero =>
    intro l hl cp pts hbad
    have hnil : l = [] := List.length_eq_zero.mp (Nat.le_zero.mp hl)
    subst hnil
    simp [hasBadTok] at hbad
  | succ n ih =>
    intro l hl cp pts hbad
    rcases l with _ | ⟨cmd, rest⟩
    · simp [hasBadTok] at hbad
    · rw [parse_d_go_cons]
      by_cases hML : cmd = ['M'] ∨ cmd = ['L']
      · rcases rest with _ | ⟨t1, rest1⟩
        · exact ⟨PyErr.indexError, by simp [parse_d_step, hML]⟩
        · rcases hf1 : pyFloat t1 with _ | x
          · exact ⟨PyErr.valueError, by simp [parse_d_step, hML, hf1]⟩
          · rcases rest1 with _ | ⟨t2, rest2⟩
            · exact ⟨PyErr.indexError, by simp [parse_d_step, hML, hf1]⟩
            · rcases hf2 : pyFloat t2 with _ | y
              · exact ⟨PyErr.valueError, by simp [parse_d_step, hML, hf1, hf2]⟩
              · have hstep : parse_d_step scale cmd (t1 :: t2 :: rest2) cp pts =
                    StepRes.cont rest2 (x * scale, y * scale)
                      (pts ++ [(x * scale, y * scale)]) := by
                  simp [parse_d_step, hML, hf1, hf2]
                rw [hstep]
                have hloc : localBadTok cmd (t1 :: t2 :: rest2) = false := by
                  simp [localBadTok, hML, hf1, hf2]
                have hbad1 := hasBadTok_tail cmd _ hloc hbad
                have hbad2 := hasBadTok_tail t1 _ (localBadTok_float t1 x _ hf1) hbad1
                have hbad3 := hasBadTok_tail t2 _ (localBadTok_float t2 y _ hf2) hbad2
                have hlen2 : rest2.length ≤ n := by
                  simp only [List.length_cons] at hl
                  omega
                exact ih rest2 hlen2 _ _ hbad3
      · by_cases hH : cmd = ['H']
        · rcases rest with _ | ⟨t1, rest2⟩
          · exact ⟨PyErr.indexError, by simp [parse_d_step, hML, hH]⟩
          · rcases hf1 : pyFloat t1 with _ | x
            · exact ⟨PyErr.valueError, by simp [parse_d_step, hML, hH, hf1]⟩
            · have hstep : parse_d_step scale cmd (t1 :: rest2) cp pts =
                  StepRes.cont rest2 (x * scale, cp.2) (pts ++ [(x * scale, cp.2)]) := by
                simp [parse_d_step, hML, hH, hf1]
              rw [hstep]
              have hloc : localBadTok cmd (t1 :: rest2) = false := by
                simp [localBadTok, hML, hH, hf1]
              have hbad1 := hasBadTok_tail cmd _ hloc hbad
              have hbad2 := hasBadTok_tail t1 _ (localBadTok_float t1 x _ hf1) hbad1
              have hlen2 : rest2.length ≤ n := by
                simp only [List.length_cons] at hl
                omega
              exact ih rest2 hlen2 _ _ hbad2
        · by_cases hV : cmd = ['V']
          · rcases rest with _ | ⟨t1, rest2⟩
            · exact ⟨PyErr.indexError, by simp [parse_d_step, hML, hH, hV]⟩
            · rcases hf1 : pyFloat t1 with _ | y
              · exact ⟨PyErr.valueError, by simp [parse_d_step, hML, hH, hV, hf1]⟩
              · have hstep : parse_d_step scale cmd (t1 :: rest2) cp pts =
                    StepRes.cont rest2 (cp.1, y * scale) (pts ++ [(cp.1, y * scale)]) := by
                  simp [parse_d_step, hML, hH, hV, hf1]
                rw [hstep]
                have hloc : localBadTok cmd (t1 :: rest2) = false := by
                  simp [localBadTok, hML, hH, hV, hf1]
                have hbad1 := hasBadTok_tail cmd _ hloc hbad
                have hbad2 := hasBadTok_tail t1 _ (localBadTok_float t1 y _ hf1) hbad1
                have hlen2 : rest2.length ≤ n := by
                  simp only [List.length_cons] at hl
                  omega
                exact ih rest2 hlen2 _ _ hbad2
          · have hHV : ¬ (cmd = ['H'] ∨ cmd = ['V']) := by
              rintro (h | h)
              exacts [hH h, hV h]
            have hloc : localBadTok cmd rest = false := by
              simp [localBadTok, hML, hHV]
            have hbad1 := hasBadTok_tail cmd _ hloc hbad
            have hlen2 : rest.length ≤ n := by
              simp only [List.length_cons] at hl
              omega
            by_cases hZ : cmd = ['Z']
            · rcases pts with _ | ⟨p0, pts'⟩
              · exact ⟨PyErr.indexError, by simp [parse_d_step, hML, hH, hV, hZ]⟩
              · have hstep : parse_d_step scale cmd rest cp (p0 :: pts') =
                    StepRes.cont rest cp ((p0 :: pts') ++ [p0]) := by
                  simp [parse_d_step, hML, hH, hV, hZ]
                rw [hstep]
                exact ih rest hlen2 _ _ hbad1
            · have hstep : parse_d_step scale cmd rest cp pts =
                  StepRes.cont rest cp pts := by
                simp [parse_d_step, hML, hH, hV, hZ]
              rw [hstep]
              exact ih rest hlen2 _ _ hbad1

/-- The claim's description of a fatally malformed token list: some `M` or
`L` token is followed by fewer than two further tokens, some `H` or `V`
token is the last token, or a coordinate token consumed by one of the
recognised commands is not a valid float literal. -/
def BadDTokens (l : List (List Char)) : Prop :=
  ∃ pre cmd suf, l = pre ++ cmd :: suf ∧
    (((cmd = ['M'] ∨ cmd = ['L']) ∧
        (suf.length < 2 ∨ ∃ t ∈ suf.take 2, pyFloat t = none)) ∨
     ((cmd = ['H'] ∨ cmd = ['V']) ∧
        (suf = [] ∨ ∃ t ∈ suf.take 1, pyFloat t = none)))

theorem hasBadTok_of_BadDTokens (l : List (List Char)) (h : BadDTokens l) :
    hasBadTok l = true := by
  rcases h with ⟨pre, cmd, suf, rfl, hcond⟩
  induction pre with
  | nil =>
    simp only [List.nil_append, hasBadTok, Bool.or_eq_true]
    left
    rcases hcond with ⟨hML, hbad⟩ | ⟨hHV, hbad⟩
    · rcases suf with _ | ⟨a, suf1⟩
      · simp [localBadTok, hML]
      · rcases suf1 with _ | ⟨b, suf2⟩
        · simp [localBadTok, hML]
        · rcases hbad with hlt | ⟨t, hmem, hnone⟩
          · simp only [List.length_cons] at hlt
            omega
          · simp only [List.take, List.mem_cons, List.mem_singleton] at hmem
            rcases hmem with rfl | rfl | hmem
            · simp [localBadTok, hML, hnone]
            · simp [localBadTok, hML, hnone]
            · simp at hmem
    · rcases suf with _ | ⟨a, suf1⟩
      · have hML' : ¬ (cmd = ['M'] ∨ cmd = ['L']) := by
          rcases hHV with rfl | rfl <;> simp
        simp [localBadTok, hML', hHV]
      · rcases hbad with hnil | ⟨t, hmem, hnone⟩
        · cases hnil
        · simp only [List.take, List.take_zero, List.mem_singleton] at hmem
          subst hmem
          have hML' : ¬ (cmd = ['M'] ∨ cmd = ['L']) := by
            rcases hHV with rfl | rfl <;> simp
          simp [localBadTok, hML', hHV, hnone]
  | cons p pre' ih =>
    simp only [List.cons_append, hasBadTok, Bool.or_eq_true]
    right
    exact ih

/-- C10: the path interpreter is not total: whenever the tokenised `d`
string contains an `M`/`L` followed by fewer than two tokens, ends in an
`H`/`V`, or feeds a non-float token to a recognised command as a
coordinate, `parse_d_attribute` raises an uncaught `IndexError` or
`ValueError` instead of returning a point list. -/
theorem d_parser_not_total (d : String) (scale : ℚ)
    (h : BadDTokens (tokenizeD d)) :
    ∃ err, parse_d_attribute d scale = Except.error err :=
  parse_d_go_error_of_bad scale (tokenizeD d).length (tokenizeD d) le_rfl (0, 0) []
    (hasBadTok_of_BadDTokens (tokenizeD d) h)

theorem d_parser_not_total_witness :
    ∃ err, parse_d_attribute "M 1" 100 = Except.error err :=
  d_parser_not_total "M 1" 100
    ⟨[], ['M'], [['1']], by decide, Or.inl ⟨Or.inl rfl, Or.inl (by decide)⟩⟩

/-- C2 counterexample: `parse_svg_for_walls` can raise for string-valued
attributes.  A path element whose style string contains `"stroke-width"`
but not `"stroke-width:"` makes `style.split("stroke-width:")[1]` raise an
`IndexError` that the surrounding code does not catch (only `ValueError`
is caught there), so the claim "never raises for any string-valued style
and d attributes" is false. -/
theorem wall_filter_raises_counterexample :
    parse_svg_for_walls
      (Except.ok [SvgElement.mk "path" none (some "") (some "stroke-width")]) 10 =
    Except.error PyErr.indexError := by decide

/-- C2 amended: for every document in which each element's style string
containing the substring `"stroke-width"` also contains `"stroke-width:"`
(with the colon), `parse_svg_for_walls` raises no exception: malformed
stroke-width values, too few `d` tokens and non-numeric coordinate tokens
are all silently excluded, and the call returns a result. -/
theorem wall_filter_silent_exclusion_amended (m : ℚ) (elems : List SvgElement)
    (h : ∀ e ∈ elems, strContains swKey ((e.style.getD "").toList) = true →
      strContains swSep ((e.style.getD "").toList) = true) :
    ∃ out, parse_svg_for_walls (Except.ok elems) m = Except.ok out := by
  rcases wallLoop_total m elems h with ⟨res, hres⟩
  refine ⟨RunOutput.mk
    ["Detected " ++ toString res.length ++
      " potential wall paths after filtering by segment length."] res, ?_⟩
  simp [parse_svg_for_walls, hres]

theorem wall_filter_silent_exclusion_amended_witness :
    ∃ out, parse_svg_for_walls
      (Except.ok [SvgElement.mk "path" none (some "M 0 0 L zz 0") (some "stroke-width:abcpx;"),
        SvgElement.mk "path" none (some "M 0 0") (some "fill:red;stroke-width:2px;")]) 10 =
      Except.ok out :=
  wall_filter_silent_exclusion_amended 10
    [SvgElement.mk "path" none (some "M 0 0 L zz 0") (some "stroke-width:abcpx;"),
      SvgElement.mk "path" none (some "M 0 0") (some "fill:red;stroke-width:2px;")] (by decide)

/-- C1: whenever `parse_svg_for_walls` returns on a parsed document, its
output contains exactly one record (id, raw d, raw style) for each
element, in document order, that satisfies the specification predicate
`specWallB`; and `specWallB` holds precisely when the namespace-stripped
tag is `"path"`, the style string yields a stroke-width strictly greater
than 0.5, and tokens 1, 2 and 4, 5 of the comma/whitespace-tokenised `d`
attribute parse as floats whose points lie at Euclidean distance at least
`min_segment_length` apart; in particular an element whose stroke-width
is at most 0.5 is never included. -/
theorem wall_filter_spec (m : ℚ) (elems : List SvgElement) (out : RunOutput)
    (h : parse_svg_for_walls (Except.ok elems) m = Except.ok out) :
    out.walls = elems.filterMap
      (fun e => if specWallB m e then some (mkRecord e) else none) ∧
    (∀ e : SvgElement, specWallB m e = true ↔
      ((charSplit '}' e.tag.toList).getLastD [] = "path".toList ∧
       (∃ w, extractStrokeWidth (e.style.getD "") = Except.ok w ∧ (1 : ℚ) / 2 < w) ∧
       (∃ x1 y1 x2 y2 : ℚ,
         (((tokenizeD (e.d.getD "")).get? 1).bind pyFloat = some x1 ∧
          ((tokenizeD (e.d.getD "")).get? 2).bind pyFloat = some y1 ∧
          ((tokenizeD (e.d.getD "")).get? 4).bind pyFloat = some x2 ∧
          ((tokenizeD (e.d.getD "")).get? 5).bind pyFloat = some y2) ∧
         (m : ℝ) ≤ calculate_distance x1 y1 x2 y2))) ∧
    (∀ (e : SvgElement) (w : ℚ), extractStrokeWidth (e.style.getD "") = Except.ok w →
      w ≤ 1 / 2 → specWallB m e = false) := by
  refine ⟨?_, ?_, ?_⟩
  · have hloop : wallLoop m elems = Except.ok out.walls := by
      rcases hl : wallLoop m elems with err | ws
      · simp only [parse_svg_for_walls, hl] at h
        exact Except.noConfusion h
      · simp only [parse_svg_for_walls, hl] at h
        have h2 := Except.ok.inj h
        subst h2
        rfl
    exact wallLoop_ok_filterMap m elems out.walls hloop
  · intro e
    constructor
    · intro hspec
      by_cases htag : (charSplit '}' e.tag.toList).getLastD [] = "path".toList
      · rcases hsw : extractStrokeWidth (e.style.getD "") with err | w
        · simp only [specWallB, htag, eq_self_iff_true, if_true, hsw] at hspec
          cases hspec
        · by_cases hw : (1 : ℚ) / 2 < w
          · rcases hpr : probeSegment (e.d.getD "") with _ | ⟨x1, y1, x2, y2⟩
            · simp only [specWallB, htag, eq_self_iff_true, if_true, hsw, hw, hpr] at hspec
              cases hspec
            · simp only [specWallB, htag, eq_self_iff_true, if_true, hsw, hw, hpr] at hspec
              refine ⟨htag, ⟨w, rfl, hw⟩, x1, y1, x2, y2,
                (probeSegment_eq_some_iff (e.d.getD "") x1 y1 x2 y2).mp hpr,
                (segTest_eq_dist_le x1 y1 x2 y2 m).mp hspec⟩
          · simp only [specWallB, htag, eq_self_iff_true, if_true, hsw, hw, if_false] at hspec
            cases hspec
      · simp only [specWallB, htag, if_false] at hspec
        cases hspec
    · rintro ⟨htag, ⟨w, hsw, hw⟩, x1, y1, x2, y2, hbinds, hdist⟩
      have hpr : probeSegment (e.d.getD "") = some (x1, y1, x2, y2) :=
        (probeSegment_eq_some_iff (e.d.getD "") x1 y1 x2 y2).mpr hbinds
      have hseg : segTest x1 y1 x2 y2 m = true :=
        (segTest_eq_dist_le x1 y1 x2 y2 m).mpr hdist
      simp only [specWallB, htag, eq_self_iff_true, if_true, hsw, hw, hpr, hseg]
  · intro e w hsw hw
    have hw' : ¬ (1 : ℚ) / 2 < w := not_lt.mpr hw
    by_cases htag : (charSplit '}' e.tag.toList).getLastD [] = "path".toList
    · simp only [specWallB, htag, eq_self_iff_true, if_true, hsw, hw', if_false]
    · simp only [specWallB, htag, if_false]

theorem wall_filter_spec_witness :
    (RunOutput.mk ["Detected 1 potential wall paths after filtering by segment length."]
        [PathRecord.mk "w1" "M 0 0 L 20 0" "stroke-width:2px;"]).walls =
      [SvgElement.mk "path" (some "w1") (some "M 0 0 L 20 0") (some "stroke-width:2px;"),
        SvgElement.mk "path" none (some "M 0 0 L 5 0") (some "stroke-width:2px;"),
        SvgElement.mk "path" none (some "M 0 0 L 90 0") (some "stroke-width:0.4px;")].filterMap
        (fun e => if specWallB 10 e then some (mkRecord e) else none) :=
  (wall_filter_spec 10
    [SvgElement.mk "path" (some "w1") (some "M 0 0 L 20 0") (some "stroke-width:2px;"),
      SvgElement.mk "path" none (some "M 0 0 L 5 0") (some "stroke-width:2px;"),
      SvgElement.mk "path" none (some "M 0 0 L 90 0") (some "stroke-width:0.4px;")]
    (RunOutput.mk ["Detected 1 potential wall paths after filtering by segment length."]
      [PathRecord.mk "w1" "M 0 0 L 20 0" "stroke-width:2px;"])
    (by decide)).1

theorem charSplit_append_first (sep : Char) (w z : List Char) (h : sep ∉ w) :
    charSplit sep (w ++ sep :: z) = w :: charSplit sep z := by
  induction w with
  | nil => simp [charSplit]
  | cons c w' ih =>
    have hc : ¬ c = sep := fun hcs => h (by simp [hcs])
    have hw' : sep ∉ w' := fun hm => h (by simp [hm])
    simp [charSplit, hc, ih hw']

/-- C3 counterexample: the style string `"stroke-width:9;stroke-width:2px;"`
contains the substring `"stroke-width:2px;"` (with v = 2), yet the
extraction takes the text after the first `"stroke-width:"` and returns 9,
not 2 — so "for every style string containing `stroke-width:<v>px;` the
extracted value equals v" is false as stated. -/
theorem stroke_width_extraction_counterexample :
    strContains ("stroke-width:2px;".toList) ("stroke-width:9;stroke-width:2px;".toList) = true ∧
    extractStrokeWidth "stroke-width:9;stroke-width:2px;" = Except.ok 9 ∧
    (9 : ℚ) ≠ 2 := by decide

/-- C3 amended: for every style string whose first `stroke-width:`
declaration is `stroke-width:<v>px;` — style = pre ++ "stroke-width:" ++
v ++ "px;" ++ post with no occurrence of `"stroke-width:"` starting
inside pre and none in the remainder, and v a decimal literal of digits
and a dot parsing to the float v — the extraction returns exactly v
(taking the text after the first `"stroke-width:"` up to the next `;` and
stripping the `px` unit); when the `stroke-width` declaration is absent
the extracted value is 0 and the element fails the filter, and when the
declaration's value fails to parse the extracted value is 0. -/
theorem stroke_width_extraction_amended (style : String) (pre vstr post : List Char) (v : ℚ)
    (hsty : style.toList = pre ++ (swSep ++ (vstr ++ ('p' :: 'x' :: ';' :: post))))
    (h1 : ∀ k < pre.length, isPre swSep (style.toList.drop k) = false)
    (h2 : strContains swSep (vstr ++ ('p' :: 'x' :: ';' :: post)) = false)
    (h3 : ∀ c ∈ vstr, c.isDigit = true ∨ c = '.')
    (h4 : pyFloat vstr = some v) :
    extractStrokeWidth style = Except.ok v ∧
    (∀ s : String, strContains swKey s.toList = false →
      extractStrokeWidth s = Except.ok 0) ∧
    (∀ (m : ℚ) (e : SvgElement) (r : PathRecord),
      strContains swKey ((e.style.getD "").toList) = false →
      processElement m e ≠ Except.ok (some r)) ∧
    (∀ (s : String) (p1 : List Char), (pySplit swSep s.toList).get? 1 = some p1 →
      pyFloat (pyReplace pxKey [] ((charSplit ';' p1).headD [])) = none →
      strContains swKey s.toList = true → extractStrokeWidth s = Except.ok 0) := by
  have habsent : ∀ s : String, strContains swKey s.toList = false →
      extractStrokeWidth s = Except.ok 0 := by
    intro s hs
    unfold extractStrokeWidth extractStrokeWidthChars
    simp only [hs, Bool.false_eq_true, if_false]
  refine ⟨?_, habsent, ?_, ?_⟩
  · have hkey : strContains swKey style.toList = true := by
      rw [hsty]
      have hshape : pre ++ (swSep ++ (vstr ++ ('p' :: 'x' :: ';' :: post))) =
          pre ++ (swKey ++ (':' :: (vstr ++ ('p' :: 'x' :: ';' :: post)))) := by
        simp [swSep, List.append_assoc]
      rw [hshape]
      exact strContains_mid swKey pre (':' :: (vstr ++ ('p' :: 'x' :: ';' :: post)))
    have hsf : splitFirst swSep style.toList =
        some (pre, vstr ++ ('p' :: 'x' :: ';' :: post)) := by
      rw [hsty]
      apply splitFirst_first_occurrence
      intro k hk
      have h1' := h1 k hk
      rw [hsty] at h1'
      exact h1'
    have hfp : firstPart swSep (vstr ++ ('p' :: 'x' :: ';' :: post)) =
        vstr ++ ('p' :: 'x' :: ';' :: post) := by
      unfold firstPart
      rw [splitFirst_none_of_no_occurrence swSep _ (no_occurrence_of_not_contains swSep _ h2)]
    have hget : (pySplit swSep style.toList).get? 1 =
        some (vstr ++ ('p' :: 'x' :: ';' :: post)) := by
      rw [pySplit_get_one, hsf]
      simp [hfp]
    have hsemi : (';' : Char) ∉ vstr ++ ['p', 'x'] := by
      intro hmem
      rcases List.mem_append.mp hmem with hm | hm
      · rcases h3 ';' hm with hd | hd
        · exact absurd hd (by decide)
        · exact absurd hd (by decide)
      · simp at hm
    have hhead : (charSplit ';' (vstr ++ ('p' :: 'x' :: ';' :: post))).headD [] =
        vstr ++ ['p', 'x'] := by
      have hshape2 : vstr ++ ('p' :: 'x' :: ';' :: post) =
          (vstr ++ ['p', 'x']) ++ (';' :: post) := by
        simp
      rw [hshape2, charSplit_append_first ';' (vstr ++ ['p', 'x']) post hsemi]
      rfl
    have hp_notin : ('p' : Char) ∉ vstr := by
      intro hm
      rcases h3 'p' hm with hd | hd
      · exact absurd hd (by decide)
      · exact absurd hd (by decide)
    have hrepl : pyReplace pxKey [] (vstr ++ ['p', 'x']) = vstr := by
      show pyReplace pxKey [] (vstr ++ pxKey) = vstr
      apply pyReplace_strip_suffix pxKey vstr (by decide)
      intro k hk
      exact no_occurrence_in_front 'p' ['x'] vstr (pxKey ++ []) hp_notin k hk
    unfold extractStrokeWidth extractStrokeWidthChars
    simp only [hkey, eq_self_iff_true, if_true, hget, hhead, hrepl, h4]
  · intro m e r hs hcontra
    have hex : extractStrokeWidth (e.style.getD "") = Except.ok 0 :=
      habsent (e.style.getD "") hs
    have hspec_false : specWallB m e = false := by
      by_cases htag : (charSplit '}' e.tag.toList).getLastD [] = "path".toList
      · simp only [specWallB, htag, eq_self_iff_true, if_true, hex]
        rw [if_neg (by norm_num : ¬ (1 : ℚ) / 2 < 0)]
      · simp only [specWallB, htag, if_false]
    rcases processElement_cases m e with ⟨hpe, hsp⟩ | ⟨hpe, hsp⟩ | ⟨err, hpe, hsp⟩
    · rw [hsp] at hspec_false
      cases hspec_false
    · rw [hpe] at hcontra
      simp at hcontra
    · rw [hpe] at hcontra
      simp at hcontra
  · intro s p1 hp1 hf hcont
    unfold extractStrokeWidth extractStrokeWidthChars
    simp only [hcont, eq_self_iff_true, if_true, hp1, hf]

theorem stroke_width_extraction_amended_witness :
    (extractStrokeWidth "fill:red;stroke-width:0.1px;zz" = Except.ok (1 / 10)) ∧
    (extractStrokeWidth "fill:red;stroke-width:0.5px;zz" = Except.ok (1 / 2)) ∧
    (extractStrokeWidth "fill:red;stroke-width:0.50001px;zz" = Except.ok (50001 / 100000)) ∧
    (extractStrokeWidth "fill:red;stroke-width:2px;zz" = Except.ok 2) :=
  ⟨(stroke_width_extraction_amended "fill:red;stroke-width:0.1px;zz"
      "fill:red;".toList "0.1".toList "zz".toList (1 / 10)
      (by decide) (by decide) (by decide) (by decide) (by decide)).1,
   (stroke_width_extraction_amended "fill:red;stroke-width:0.5px;zz"
      "fill:red;".toList "0.5".toList "zz".toList (1 / 2)
      (by decide) (by decide) (by decide) (by decide) (by decide)).1,
   (stroke_width_extraction_amended "fill:red;stroke-width:0.50001px;zz"
      "fill:red;".toList "0.50001".toList "zz".toList (50001 / 100000)
      (by decide) (by decide) (by decide) (by decide) (by decide)).1,
   (stroke_width_extraction_amended "fill:red;stroke-width:2px;zz"
      "fill:red;".toList "2".toList "zz".toList 2
      (by decide) (by decide) (by decide) (by decide) (by decide)).1⟩

/-- C7: the wall filter's tag test compares only the local name: an
element whose tag is any prefix followed by `}` and then `path` is
processed exactly as one whose tag is the bare string `"path"`, all other
attributes equal. -/
theorem namespace_stripping (m : ℚ) (pre : String) (idA dA sA : Option String) :
    processElement m (SvgElement.mk (pre ++ "\x7dpath") idA dA sA) =
      processElement m (SvgElement.mk "path" idA dA sA) := by
  have hq : ("\x7dpath" : String).data = '}' :: ("path" : String).data := by decide
  have hL : (pre ++ "\x7dpath").toList = pre.toList ++ '}' :: ("path" : String).toList := by
    simp only [String.toList, String.data_append, hq]
  have htag : (charSplit '}' (pre ++ "\x7dpath").toList).getLastD [] =
      ("path" : String).toList := by
    rw [hL, charSplit_append_sep_getLastD]
    rw [charSplit_not_mem '}' ("path" : String).toList (by decide)]
    rfl
  have htag2 : (charSplit '}' ("path" : String).toList).getLastD [] =
      ("path" : String).toList := by decide
  simp only [processElement, htag, htag2, eq_self_iff_true, if_true]
